import Mathlib

/-!
Verification of the commit-navigation core of git-branchless
(`src/commands/navigation.rs`): the `advance` traversal engine, the
`next` and `pick` orchestrators, and the `prompt_for_range` selection
prompt, shallowly embedded over an abstract commit DAG.

Commits are identified by natural numbers (standing for opaque commit
OIDs).  The external DAG query surface (children sets, the obsolete-commit
set, and the canonical commit order used by `sort_commit_set`) is modelled
as a structure of functions; the traversal engine, orchestrators and
prompt are translated from the Rust source.
-/

/-- The external commit-DAG query surface consumed by the navigation core.
`children c` is the set of direct children of commit `c` (as a duplicate-free
list in arbitrary order), `obsolete` is membership in the obsolete-commit
set (`dag.obsolete_commits`), and `commitTime c` is the committed date of
`c`, used by the canonical sort order. -/
structure Dag where
  children : Nat → List Nat
  obsolete : Nat → Bool
  commitTime : Nat → Nat

/-- Modelled from the spec: the canonical total order over commits used by
`sort_commit_set` (whose source is outside the given files) — ascending
commit time, ties broken by commit identifier. -/
def canonLE (g : Dag) (a b : Nat) : Prop :=
  g.commitTime a < g.commitTime b ∨ (g.commitTime a = g.commitTime b ∧ a ≤ b)

instance (g : Dag) : DecidableRel (canonLE g) := fun a b =>
  inferInstanceAs (Decidable (_ ∨ _))

instance (g : Dag) : IsTotal Nat (canonLE g) := by
  constructor
  intro a b
  unfold canonLE
  omega

instance (g : Dag) : IsTrans Nat (canonLE g) := by
  constructor
  intro a b c hab hbc
  unfold canonLE at *
  omega

/-- Modelled from the spec: `sort_commit_set` (source outside the given
files) sorts a commit set into the canonical order (commit time, then
identifier). -/
def sort_commit_set (g : Dag) (l : List Nat) : List Nat :=
  List.insertionSort (canonLE g) l

/-- The per-step child query of `advance`:
`dag.query().children(current).difference(&dag.obsolete_commits)`. -/
def liveChildren (g : Dag) (c : Nat) : List Nat :=
  (g.children c).filter (fun x => !g.obsolete x)

/-- The sorted live-children set computed at each step of `advance`:
`sort_commit_set(repo, dag, &children)` after the obsolete difference. -/
def liveChildrenSorted (g : Dag) (c : Nat) : List Nat :=
  sort_commit_set g (liveChildren g c)

/-- The `Towards` disambiguation policy from navigation.rs. -/
inductive Towards where
  | Newest
  | Oldest
  deriving DecidableEq, Repr

/-- Rust `str::trim`: remove whitespace from both ends of the string. -/
def rustTrim (s : String) : String :=
  String.mk (((s.data.dropWhile Char.isWhitespace).reverse.dropWhile
    Char.isWhitespace).reverse)

/-- Rust `str::parse::<usize>`: an optional leading `+` followed by one or
more ASCII digits parses to the denoted number; everything else is a parse
error.  (A value overflowing `usize` is a parse error in Rust; here it
parses to the unbounded natural instead.  Both are treated identically by
`prompt_for_range`, which maps any parse error to 0 and rejects any value
above `max`, so the two models agree on every observable outcome of the
prompt.) -/
def rustParseUsize (s : String) : Option Nat :=
  match s.data with
  | [] => none
  | c :: cs =>
    let ds := if c = '+' then cs else c :: cs
    if ds.isEmpty then none
    else if ds.all Char.isDigit then
      some (ds.foldl (fun acc ch => acc * 10 + (ch.toNat - 48)) 0)
    else none

/-- `prompt_for_range` from navigation.rs, with the one line read from
stdin passed in as `input`: trim it, parse it as a `usize` with
`unwrap_or(0)`, and return `none` (no selection) when the result lies
outside `[min, max]`, otherwise the parsed value itself. -/
def prompt_for_range (min max : Nat) (input : String) : Option Nat :=
  let selected := (rustParseUsize (rustTrim input)).getD 0
  if selected < min ∨ max < selected then none else some selected

/-- Result of `advance` together with bookkeeping the spec talks about:
`result` is the returned `Option<NonZeroOid>`, `queries` counts the
children queries issued against the DAG, and `hint` records whether the
non-interactive ambiguity hint was printed. -/
structure AdvanceResult where
  result : Option Nat
  queries : Nat
  hint : Bool
  deriving DecidableEq, Repr

def bumpQuery (r : AdvanceResult) : AdvanceResult :=
  { r with queries := r.queries + 1 }

/-- One iteration of the loop body of `advance` (navigation.rs lines
67-123): query the sorted live children of `current`, then match on
`(towards, children.as_slice())` exactly as the source does.  `inputs` is
the stream of stdin lines; an interactive ambiguous step consumes one. -/
def advanceStep (g : Dag) (towards : Option Towards) (interactive : Bool)
    (current : Nat) (inputs : List String) : Option (Option (Nat × List String)) :=
  match towards, liveChildrenSorted g current with
  | _, [] => some none
  | _, [onlyChild] => some (some (onlyChild, inputs))
  | some Towards.Newest, c :: c2 :: rest =>
      some (some ((c :: c2 :: rest).getLast (List.cons_ne_nil c (c2 :: rest)), inputs))
  | some Towards.Oldest, c :: _ :: _ => some (some (c, inputs))
  | none, c :: c2 :: rest =>
      if interactive then
        match prompt_for_range 1 (c :: c2 :: rest).length (inputs.headD "") with
        | some selected => some (some ((c :: c2 :: rest).getD (selected - 1) 0, inputs.tail))
        | none => none
      else none

/-- Whether the hint `(Pass --oldest (-o) or --newest (-n) ...)` is printed
at this step: exactly the non-interactive ambiguous `(None, [_, _, ..])`
branch of the match in `advance`. -/
def stepHint (g : Dag) (towards : Option Towards) (interactive : Bool)
    (current : Nat) : Bool :=
  match towards, liveChildrenSorted g current with
  | none, _ :: _ :: _ => !interactive
  | _, _ => false

/-- The loop of `advance`, by remaining iteration count (the `for` loop
runs `max(num_commits, 0)` times).  `some none` from a step is the `break`
(return the current commit), `none` is the `return Ok(None)` abort. -/
def advanceAux (g : Dag) (towards : Option Towards) (interactive : Bool) :
    Nat → Nat → List String → AdvanceResult
  | 0, current, _ => ⟨some current, 0, false⟩
  | n + 1, current, inputs =>
    match advanceStep g towards interactive current inputs with
    | some none => ⟨some current, 1, false⟩
    | some (some (child, rest)) =>
        bumpQuery (advanceAux g towards interactive n child rest)
    | none => ⟨none, 1, stepHint g towards interactive current⟩

/-- `advance` from navigation.rs: attempt `num_commits` forward steps from
`current_oid`.  A negative `num_commits` makes the Rust `for i in
0..num_commits` loop empty, hence `Int.toNat`. -/
def advance (g : Dag) (current_oid : Nat) (num_commits : Int)
    (towards : Option Towards) (interactive : Bool) (inputs : List String) :
    Option Nat :=
  (advanceAux g towards interactive num_commits.toNat current_oid inputs).result

/-- Observable actions of the `next` orchestrator after `advance` returns:
invoking the external checkout runner, and the smartlog view refresh. -/
inductive NextEffect where
  | checkout (oid : Nat)
  | viewRefresh
  deriving DecidableEq, Repr

/-- `next` from navigation.rs, given the resolved `HEAD` commit: run
`advance` (with `num_commits.unwrap_or(1)`), return exit code 1 on a
`None` outcome, otherwise run `git checkout` on the result (exit code
modelled by `checkoutExit`), propagate a non-zero checkout exit code, and
on success refresh the smartlog view and return 0.  The second component
lists the external actions performed, in order. -/
def nextCmd (g : Dag) (head_oid : Nat) (num_commits : Option Int)
    (towards : Option Towards) (interactive : Bool) (inputs : List String)
    (checkoutExit : Nat → Int) : Int × List NextEffect :=
  match advance g head_oid (num_commits.getD 1) towards interactive inputs with
  | none => (1, [])
  | some oid =>
      if checkoutExit oid ≠ 0 then (checkoutExit oid, [NextEffect.checkout oid])
      else (0, [NextEffect.checkout oid, NextEffect.viewRefresh])

/-- The commit lookup in `pick` after a prompt selection: find the entry of
`numbered_nodes` whose numeric label equals `selected` and project its
commit; `none` is the `.expect("fixme")` panic branch. -/
def pickLookup (numbered : List (Nat × Nat)) (selected : Nat) : Option Nat :=
  (numbered.find? (fun p => p.2 == selected)).map (fun p => p.1)

/-- The selection-and-checkout tail of `pick` (navigation.rs lines
228-243), given the numbered nodes of the rendered graph and the one stdin
line: prompt over `[1, numbered.length]`; no selection returns exit code 1;
a valid selection looks up the commit by label (`Except.error` is the
`expect("fixme")` panic) and checks it out, propagating a non-zero exit. -/
def pickCmd (numbered : List (Nat × Nat)) (input : String)
    (checkoutExit : Nat → Int) : Except String Int :=
  match prompt_for_range 1 numbered.length input with
  | some selected =>
      match pickLookup numbered selected with
      | none => Except.error "fixme"
      | some oid =>
          if checkoutExit oid ≠ 0 then Except.ok (checkoutExit oid)
          else Except.ok 0
  | none => Except.ok 1

/-- Reachability from `a` to `b` through non-obsolete children only: each
step moves to a child of the current commit that is not in the obsolete
set. -/
inductive LiveReach (g : Dag) : Nat → Nat → Prop where
  | refl (a : Nat) : LiveReach g a a
  | step {a b c : Nat} : b ∈ g.children a → g.obsolete b = false →
      LiveReach g b c → LiveReach g a c

/-! ## Concrete fixtures -/

/-- The branching scenario of the spec: commit A (= 0) has children
B (= 1, older) and C (= 2, newer); no commit is obsolete.  The children
are stored newest-first so that the canonical sort is observable. -/
def gScenario : Dag :=
  { children := fun n => if n = 0 then [2, 1] else []
    obsolete := fun _ => false
    commitTime := fun n => 10 * n }

/-- The obsolete-sole-child scenario of the spec: commit A (= 0) has the
single child D (= 5), which is obsolete. -/
def gD : Dag :=
  { children := fun n => if n = 0 then [5] else []
    obsolete := fun n => n == 5
    commitTime := fun n => n }

/-- A three-commit linear chain 0 → 1 → 2 with no obsolete commits. -/
def gChain : Dag :=
  { children := fun n => if n = 0 then [1] else if n = 1 then [2] else []
    obsolete := fun _ => false
    commitTime := fun n => n }

/-- A checkout runner that always succeeds. -/
def cfZero : Nat → Int := fun _ => 0

/-! ## Helper lemmas -/

theorem advanceAux_succ (g : Dag) (t : Option Towards) (i : Bool) (n : Nat)
    (c : Nat) (ins : List String) :
    advanceAux g t i (n + 1) c ins =
      match advanceStep g t i c ins with
      | some none => ⟨some c, 1, false⟩
      | some (some (child, rest)) => bumpQuery (advanceAux g t i n child rest)
      | none => ⟨none, 1, stepHint g t i c⟩ := rfl

theorem canonLE_refl (g : Dag) (a : Nat) : canonLE g a a :=
  Or.inr ⟨rfl, le_refl a⟩

theorem liveChildrenSorted_sorted (g : Dag) (c : Nat) :
    List.Sorted (canonLE g) (liveChildrenSorted g c) :=
  List.sorted_insertionSort (canonLE g) (liveChildren g c)

theorem mem_liveChildrenSorted {g : Dag} {c x : Nat} :
    x ∈ liveChildrenSorted g c ↔ x ∈ g.children c ∧ g.obsolete x = false := by
  unfold liveChildrenSorted sort_commit_set liveChildren
  rw [(List.perm_insertionSort (canonLE g) _).mem_iff]
  simp [List.mem_filter]

theorem sorted_canonLE_head (g : Dag) (a : Nat) (t : List Nat)
    (hs : List.Sorted (canonLE g) (a :: t)) : ∀ x ∈ a :: t, canonLE g a x := by
  intro x hx
  rcases List.mem_cons.mp hx with rfl | hx'
  · exact canonLE_refl g x
  · exact (List.sorted_cons.mp hs).1 x hx'

theorem sorted_canonLE_getLast (g : Dag) :
    ∀ (l : List Nat) (h : l ≠ []), List.Sorted (canonLE g) l →
      ∀ x ∈ l, canonLE g x (l.getLast h) := by
  intro l
  induction l with
  | nil => intro h; exact absurd rfl h
  | cons a t ih =>
    intro h hs x hx
    cases t with
    | nil =>
      rcases List.mem_cons.mp hx with rfl | hx'
      · exact canonLE_refl g x
      · exact absurd hx' (List.not_mem_nil x)
    | cons b t' =>
      rw [List.getLast_cons (List.cons_ne_nil b t')]
      rcases List.mem_cons.mp hx with rfl | hx'
      · exact (List.sorted_cons.mp hs).1 _
          (List.getLast_mem (List.cons_ne_nil b t'))
      · exact ih (List.cons_ne_nil b t') (List.sorted_cons.mp hs).2 x hx'

theorem getD_mem_of_lt : ∀ (l : List Nat) (j d : Nat), j < l.length → l.getD j d ∈ l
  | a :: t, 0, _, _ => List.mem_cons_self a t
  | a :: t, j + 1, d, h =>
      List.mem_cons_of_mem a (getD_mem_of_lt t j d (by simpa using h))

theorem prompt_some_bounds {min max v : Nat} {input : String}
    (h : prompt_for_range min max input = some v) : min ≤ v ∧ v ≤ max := by
  unfold prompt_for_range at h
  by_cases hc : (rustParseUsize (rustTrim input)).getD 0 < min ∨
      max < (rustParseUsize (rustTrim input)).getD 0
  · rw [if_pos hc] at h
    exact absurd h (by simp)
  · rw [if_neg hc] at h
    cases h
    omega

/-! ## Claim theorems -/

/-- C8: for every starting commit, policy and interactivity setting,
`advance` with step count `N = 0` returns the starting commit as a
resolved outcome immediately, performing zero children queries against
the DAG. -/
theorem advance_zero_steps (g : Dag) (c : Nat) (t : Option Towards) (i : Bool)
    (ins : List String) :
    advance g c 0 t i ins = some c ∧
      advanceAux g t i ((0 : Int).toNat) c ins = ⟨some c, 0, false⟩ :=
  ⟨rfl, rfl⟩

/-- C6: for the Selection Prompt over `[min, max]` with `1 ≤ min ≤ max`,
unparsable input yields no selection, input parsing to a value outside
`[min, max]` yields no selection, and input parsing to a value inside
`[min, max]` yields exactly that parsed value. -/
theorem prompt_for_range_spec (min max : Nat) (input : String)
    (hmin : 1 ≤ min) (hminmax : min ≤ max) :
    (rustParseUsize (rustTrim input) = none →
      prompt_for_range min max input = none) ∧
    (∀ v, rustParseUsize (rustTrim input) = some v → (v < min ∨ max < v) →
      prompt_for_range min max input = none) ∧
    (∀ v, rustParseUsize (rustTrim input) = some v → min ≤ v → v ≤ max →
      prompt_for_range min max input = some v) := by
  refine ⟨?_, ?_, ?_⟩
  · intro h
    simp only [prompt_for_range, h, Option.getD_none]
    rw [if_pos (Or.inl (by omega))]
  · intro v h hout
    simp only [prompt_for_range, h, Option.getD_some]
    rw [if_pos (by omega)]
  · intro v h h1 h2
    simp only [prompt_for_range, h, Option.getD_some]
    rw [if_neg (by omega)]

/-- Witness for C6 at `[min, max] = [1, 3]`: non-numeric input `"abc"`,
out-of-range input `"7"`, and in-range input `" 2 \n"`. -/
theorem prompt_for_range_spec_witness :
    prompt_for_range 1 3 "abc" = none ∧ prompt_for_range 1 3 "7\n" = none ∧
      prompt_for_range 1 3 " 2 \n" = some 2 :=
  ⟨(prompt_for_range_spec 1 3 "abc" (by decide) (by decide)).1 (by decide),
   (prompt_for_range_spec 1 3 "7\n" (by decide) (by decide)).2.1 7 (by decide)
     (by decide),
   (prompt_for_range_spec 1 3 " 2 \n" (by decide) (by decide)).2.2 2 (by decide)
     (by decide) (by decide)⟩

/-- C10: for every negative step count, `advance` performs no steps and
returns the starting commit as a resolved outcome, so `next` proceeds to
check out the current `HEAD` commit (the first external action is the
checkout of the start) rather than rejecting the argument. -/
theorem advance_negative_steps (g : Dag) (c : Nat) (m : Int) (t : Option Towards)
    (i : Bool) (ins : List String) (cf : Nat → Int) (hm : m < 0) :
    advance g c m t i ins = some c ∧
      (nextCmd g c (some m) t i ins cf).2.head? = some (NextEffect.checkout c) := by
  have h0 : m.toNat = 0 := Int.toNat_of_nonpos (le_of_lt hm)
  have hadv : advance g c m t i ins = some c := by
    simp [advance, h0, advanceAux]
  refine ⟨hadv, ?_⟩
  simp only [nextCmd, Option.getD_some]
  rw [hadv]
  by_cases hcf : cf c ≠ 0 <;> simp [hcf]

/-- Witness for C10 at `N = -1` on the chain graph. -/
theorem advance_negative_steps_witness :
    advance gScenario 0 (-1) none false [] = some 0 ∧
      (nextCmd gScenario 0 (some (-1)) none false [] cfZero).2.head? =
        some (NextEffect.checkout 0) :=
  advance_negative_steps gScenario 0 (-1) none false [] cfZero (by decide)

/-- C3: for a commit `a` whose sole child `d` is obsolete, `next(1)` stops
the traversal early, resolves `a` itself, and (the checkout of `a`
succeeding) returns exit code 0 and still triggers a view refresh. -/
theorem next_obsolete_sole_child (g : Dag) (a d : Nat) (cf : Nat → Int)
    (hch : g.children a = [d]) (hobs : g.obsolete d = true) (hcf : cf a = 0) :
    advance g a 1 none false [] = some a ∧
      nextCmd g a (some 1) none false [] cf =
        (0, [NextEffect.checkout a, NextEffect.viewRefresh]) := by
  have hlc : liveChildrenSorted g a = [] := by
    simp [liveChildrenSorted, sort_commit_set, liveChildren, hch, hobs]
  have hadv : advance g a 1 none false [] = some a := by
    simp [advance, advanceAux, advanceStep, hlc]
  refine ⟨hadv, ?_⟩
  simp only [nextCmd, Option.getD_some]
  rw [hadv]
  simp [hcf]

/-- Witness for C3 on the obsolete-sole-child graph `gD`. -/
theorem next_obsolete_sole_child_witness :
    advance gD 0 1 none false [] = some 0 ∧
      nextCmd gD 0 (some 1) none false [] cfZero =
        (0, [NextEffect.checkout 0, NextEffect.viewRefresh]) :=
  next_obsolete_sole_child gD 0 5 cfZero (by decide) (by decide) (by decide)

/-- C4: at a commit whose non-obsolete child set is ambiguous, `advance`
in non-interactive mode with no policy aborts immediately with a
cancellation outcome and prints the pass-a-policy-flag hint, and the
enclosing `next` returns exit code 1 with no checkout attempted. -/
theorem advance_ambiguous_noninteractive (g : Dag) (c c1 c2 : Nat)
    (rest : List Nat) (n : Nat) (m : Int) (ins : List String) (cf : Nat → Int)
    (hcs : liveChildrenSorted g c = c1 :: c2 :: rest) (hm : m.toNat = n + 1) :
    advanceAux g none false (n + 1) c ins = ⟨none, 1, true⟩ ∧
      nextCmd g c (some m) none false ins cf = (1, []) := by
  have hstep : advanceStep g none false c ins = none := by
    simp [advanceStep, hcs]
  have hhint : stepHint g none false c = true := by
    simp [stepHint, hcs]
  have haux : advanceAux g none false (n + 1) c ins = ⟨none, 1, true⟩ := by
    rw [advanceAux_succ, hstep, hhint]
  refine ⟨haux, ?_⟩
  simp only [nextCmd, Option.getD_some, advance, hm, haux]

/-- Witness for C4 on the branching graph `gScenario`. -/
theorem advance_ambiguous_noninteractive_witness :
    advanceAux gScenario none false 1 0 [] = ⟨none, 1, true⟩ ∧
      nextCmd gScenario 0 (some 1) none false [] cfZero = (1, []) :=
  advance_ambiguous_noninteractive gScenario 0 1 2 [] 0 1 [] cfZero (by decide)
    (by decide)

theorem bumpQuery_result (r : AdvanceResult) : (bumpQuery r).result = r.result :=
  rfl

theorem advanceStep_go_mem {g : Dag} {t : Option Towards} {i : Bool} {c : Nat}
    {ins rest : List String} {child : Nat}
    (h : advanceStep g t i c ins = some (some (child, rest))) :
    child ∈ liveChildrenSorted g c := by
  unfold advanceStep at h
  split at h
  · exact absurd h (by simp)
  · next heq =>
    rw [heq]
    cases h
    exact List.mem_cons_self _ _
  · next a b tl heq =>
    rw [heq]
    cases h
    exact List.getLast_mem (List.cons_ne_nil a (b :: tl))
  · next a b tl heq =>
    rw [heq]
    cases h
    exact List.mem_cons_self _ _
  · next a b tl heq =>
    rw [heq]
    by_cases hi : i
    · rw [if_pos hi] at h
      rcases hp : prompt_for_range 1 (a :: b :: tl).length (ins.headD "") with _ | sel
      · rw [hp] at h
        exact absurd h (by simp)
      · rw [hp] at h
        cases h
        have hb := prompt_some_bounds hp
        exact getD_mem_of_lt (a :: b :: tl) (sel - 1) 0 (by
          have := hb.2
          simp only [List.length_cons] at this ⊢
          omega)
    · rw [if_neg hi] at h
      exact absurd h (by simp)

/-- C1: at every ambiguous step (at least two non-obsolete children),
`advance` with policy `Newest` steps to the last element of the
canonically sorted child set, which is greatest in the canonical order,
and with policy `Oldest` to the first element, which is least; on the
concrete graph `gScenario` (A = 0 with children B = 1 older, C = 2 newer),
`next(1, Newest)` from A checks out C and `next(1, Oldest)` checks out B. -/
theorem advance_policy_extremes (g : Dag) (c c1 c2 : Nat) (rest : List Nat)
    (i : Bool) (n : Nat) (ins : List String)
    (hcs : liveChildrenSorted g c = c1 :: c2 :: rest) :
    advanceAux g (some Towards.Newest) i (n + 1) c ins =
      bumpQuery (advanceAux g (some Towards.Newest) i n
        ((c1 :: c2 :: rest).getLast (List.cons_ne_nil c1 (c2 :: rest))) ins) ∧
    advanceAux g (some Towards.Oldest) i (n + 1) c ins =
      bumpQuery (advanceAux g (some Towards.Oldest) i n c1 ins) ∧
    (∀ x ∈ c1 :: c2 :: rest,
      canonLE g x ((c1 :: c2 :: rest).getLast (List.cons_ne_nil c1 (c2 :: rest)))) ∧
    (∀ x ∈ c1 :: c2 :: rest, canonLE g c1 x) ∧
    nextCmd gScenario 0 (some 1) (some Towards.Newest) false [] cfZero =
      (0, [NextEffect.checkout 2, NextEffect.viewRefresh]) ∧
    nextCmd gScenario 0 (some 1) (some Towards.Oldest) false [] cfZero =
      (0, [NextEffect.checkout 1, NextEffect.viewRefresh]) := by
  have hs : List.Sorted (canonLE g) (c1 :: c2 :: rest) :=
    hcs ▸ liveChildrenSorted_sorted g c
  refine ⟨?_, ?_, ?_, ?_, by decide, by decide⟩
  · rw [advanceAux_succ]
    simp [advanceStep, hcs]
  · rw [advanceAux_succ]
    simp [advanceStep, hcs]
  · exact sorted_canonLE_getLast g _ (List.cons_ne_nil c1 (c2 :: rest)) hs
  · exact sorted_canonLE_head g c1 (c2 :: rest) hs

/-- Witness for C1 on `gScenario` at its ambiguous step `0` with children
`[1, 2]`. -/
theorem advance_policy_extremes_witness :
    advanceAux gScenario (some Towards.Newest) false 1 0 [] =
      bumpQuery (advanceAux gScenario (some Towards.Newest) false 0 2 []) ∧
      advanceAux gScenario (some Towards.Oldest) false 1 0 [] =
        bumpQuery (advanceAux gScenario (some Towards.Oldest) false 0 1 []) :=
  ⟨(advance_policy_extremes gScenario 0 1 2 [] false 0 [] (by decide)).1,
   (advance_policy_extremes gScenario 0 1 2 [] false 0 [] (by decide)).2.1⟩

/-- C2 counterexample: on `gD` (HEAD = 0, whose sole child is obsolete)
the traversal stops early with no progress, yet `next` does invoke the
checkout runner on the start commit and returns exit code 0 — not a
non-zero result without checkout as the claim states. -/
theorem next_early_stop_counterexample :
    advance gD 0 1 none false [] = some 0 ∧
      (nextCmd gD 0 (some 1) none false [] cfZero).1 = 0 ∧
      NextEffect.checkout 0 ∈ (nextCmd gD 0 (some 1) none false [] cfZero).2 := by
  decide

/-- C2 amended: when the traversal cancels (user declined or no valid
selection), `next` returns exit code 1 without invoking the checkout
runner; but on an early stop with no progress the resolved commit is the
start itself and `next` still invokes the checkout runner on it (its first
external action is that checkout). -/
theorem next_cancel_no_checkout (g : Dag) (h : Nat) (num : Option Int)
    (t : Option Towards) (i : Bool) (ins : List String) (cf : Nat → Int) :
    (advance g h (num.getD 1) t i ins = none →
      nextCmd g h num t i ins cf = (1, [])) ∧
    (∀ oid, advance g h (num.getD 1) t i ins = some oid →
      (nextCmd g h num t i ins cf).2.head? = some (NextEffect.checkout oid)) := by
  constructor
  · intro hadv
    simp only [nextCmd, hadv]
  · intro oid hadv
    simp only [nextCmd, hadv]
    by_cases hcf : cf oid ≠ 0 <;> simp [hcf]

/-- Witness for the amended C2: a cancellation on `gScenario` (ambiguous,
non-interactive) yields `(1, [])`, and the early stop on `gD` yields a
checkout of the start as the first external action. -/
theorem next_cancel_no_checkout_witness :
    nextCmd gScenario 0 (some 1) none false [] cfZero = (1, []) ∧
      (nextCmd gD 0 (some 1) none false [] cfZero).2.head? =
        some (NextEffect.checkout 0) :=
  ⟨(next_cancel_no_checkout gScenario 0 (some 1) none false [] cfZero).1
      (by decide),
   (next_cancel_no_checkout gD 0 (some 1) none false [] cfZero).2 0 (by decide)⟩

/-- C5: obsolete commits are never selected: any commit resolved by
`advance` other than the start is reached through a path of non-obsolete
children (so is itself non-obsolete), and from a commit all of whose
children are obsolete the traversal stops early at that commit, for every
policy and interactivity setting. -/
theorem advance_avoids_obsolete :
    (∀ (g : Dag) (t : Option Towards) (i : Bool) (n c : Nat)
      (ins : List String) (r : Nat),
      (advanceAux g t i n c ins).result = some r →
      r = c ∨ (LiveReach g c r ∧ g.obsolete r = false)) ∧
    (∀ (g : Dag) (c : Nat), (∀ d ∈ g.children c, g.obsolete d = true) →
      ∀ (t : Option Towards) (i : Bool) (n : Nat) (ins : List String),
        (advanceAux g t i n c ins).result = some c) := by
  constructor
  · intro g t i n
    induction n with
    | zero =>
      intro c ins r h
      simp [advanceAux] at h
      exact Or.inl h.symm
    | succ n ih =>
      intro c ins r h
      rw [advanceAux_succ] at h
      rcases hstep : advanceStep g t i c ins with _ | (_ | ⟨child, rest⟩) <;>
        rw [hstep] at h
      · exact absurd h (by simp)
      · simp at h
        exact Or.inl h.symm
      · have hr : (advanceAux g t i n child rest).result = some r := by
          simpa [bumpQuery] using h
        have hmem := mem_liveChildrenSorted.mp (advanceStep_go_mem hstep)
        rcases ih child rest r hr with rfl | ⟨hreach, hobs⟩
        · exact Or.inr ⟨LiveReach.step hmem.1 hmem.2 (LiveReach.refl r), hmem.2⟩
        · exact Or.inr ⟨LiveReach.step hmem.1 hmem.2 hreach, hobs⟩
  · intro g c hobs t i n ins
    have hfe : liveChildren g c = [] := by
      unfold liveChildren
      rw [List.filter_eq_nil_iff]
      intro d hd
      simp [hobs d hd]
    have hlc : liveChildrenSorted g c = [] := by
      simp [liveChildrenSorted, sort_commit_set, hfe]
    cases n with
    | zero => simp [advanceAux]
    | succ n =>
      have hstep : advanceStep g t i c ins = some none := by
        unfold advanceStep
        rw [hlc]
        rcases t with _ | tw
        · rfl
        · cases tw <;> rfl
      rw [advanceAux_succ, hstep]

/-- Witness for C5 on `gD`: the traversal from commit 0 (all of whose
children are obsolete) stops early at 0. -/
theorem advance_avoids_obsolete_witness :
    (advanceAux gD none false 1 0 []).result = some 0 ∧
      (0 = 0 ∨ (LiveReach gD 0 0 ∧ gD.obsolete 0 = false)) :=
  ⟨advance_avoids_obsolete.2 gD 0 (by decide) none false 1 [],
   advance_avoids_obsolete.1 gD none false 1 0 [] 0
     (advance_avoids_obsolete.2 gD 0 (by decide) none false 1 [])⟩

/-- C7: on a linear chain (each commit on the chain has exactly one
non-obsolete child, the next chain entry, and the last entry has none),
`advance` started at any chain position with any step count, policy and
interactivity setting resolves the unique `N`th descendant, or the last
commit of the chain when the chain is shorter. -/
theorem advance_linear_chain (g : Dag) (chain : List Nat) (t : Option Towards)
    (i : Bool)
    (hstep : ∀ j, j < chain.length - 1 →
      liveChildrenSorted g (chain.getD j 0) = [chain.getD (j + 1) 0])
    (hlast : liveChildrenSorted g (chain.getD (chain.length - 1) 0) = []) :
    ∀ (N j : Nat) (ins : List String), j < chain.length →
      (advanceAux g t i N (chain.getD j 0) ins).result =
        some (chain.getD (min (j + N) (chain.length - 1)) 0) := by
  intro N
  induction N with
  | zero =>
    intro j ins hj
    have harith : min (j + 0) (chain.length - 1) = j := by omega
    rw [harith]
    simp [advanceAux]
  | succ N ih =>
    intro j ins hj
    by_cases hjl : j < chain.length - 1
    · have hstepeq : advanceStep g t i (chain.getD j 0) ins =
          some (some (chain.getD (j + 1) 0, ins)) := by
        unfold advanceStep
        rw [hstep j hjl]
        rcases t with _ | tw
        · rfl
        · cases tw <;> rfl
      rw [advanceAux_succ, hstepeq]
      show (bumpQuery (advanceAux g t i N (chain.getD (j + 1) 0) ins)).result = _
      rw [bumpQuery_result]
      have hres := ih (j + 1) ins (by omega)
      have harith : min (j + 1 + N) (chain.length - 1) =
          min (j + (N + 1)) (chain.length - 1) := by omega
      rw [harith] at hres
      exact hres
    · have hj' : j = chain.length - 1 := by omega
      have hstepeq : advanceStep g t i (chain.getD j 0) ins = some none := by
        unfold advanceStep
        rw [hj', hlast]
        rcases t with _ | tw
        · rfl
        · cases tw <;> rfl
      rw [advanceAux_succ, hstepeq]
      have harith : min (j + (N + 1)) (chain.length - 1) = j := by omega
      rw [harith]

/-- Witness for C7 on the chain `0 → 1 → 2` with `N = 5` from position 0:
the traversal stops at the last commit 2. -/
theorem advance_linear_chain_witness :
    (advanceAux gChain (some Towards.Newest) true 5 ([0, 1, 2].getD 0 0)
      ["x"]).result = some ([0, 1, 2].getD (min (0 + 5) ([0, 1, 2].length - 1)) 0) :=
  advance_linear_chain gChain [0, 1, 2] (some Towards.Newest) true (by decide)
    (by decide) 5 0 ["x"] (by decide)

/-- C9: the post-prompt lookup in `pick` cannot hit its `expect("fixme")`
panic for any valid selection when the numbered-nodes mapping covers every
label `1..N`; if a label in that range is missing, a selection accepted by
the prompt makes `pick` reach the panic branch. -/
theorem pick_lookup_spec (numbered : List (Nat × Nat)) (cf : Nat → Int) :
    ((∀ l, l ≤ numbered.length → 1 ≤ l → ∃ p ∈ numbered, p.2 = l) →
      ∀ s, 1 ≤ s → s ≤ numbered.length → (pickLookup numbered s).isSome = true) ∧
    (∀ (input : String) (s : Nat),
      prompt_for_range 1 numbered.length input = some s →
      (∀ p ∈ numbered, p.2 ≠ s) →
      pickLookup numbered s = none ∧
        pickCmd numbered input cf = Except.error "fixme") := by
  constructor
  · intro hsurj s hs1 hs2
    obtain ⟨p, hp, hps⟩ := hsurj s hs2 hs1
    rcases hfind : numbered.find? (fun q => q.2 == s) with _ | q
    · exfalso
      have := List.find?_eq_none.mp hfind p hp
      simp [hps] at this
    · simp [pickLookup, hfind]
  · intro input s hprompt hnone
    have hfind : numbered.find? (fun q => q.2 == s) = none := by
      rw [List.find?_eq_none]
      intro q hq
      simp [hnone q hq]
    have hlook : pickLookup numbered s = none := by simp [pickLookup, hfind]
    exact ⟨hlook, by simp [pickCmd, hprompt, hlook]⟩

/-- Witness for C9: with labels `{1, 2}` on two nodes every valid
selection is panic-free, while with labels `{1, 3}` the accepted
selection 2 reaches the panic branch. -/
theorem pick_lookup_spec_witness :
    (pickLookup [(100, 1), (200, 2)] 2).isSome = true ∧
      pickLookup [(100, 1), (200, 3)] 2 = none ∧
      pickCmd [(100, 1), (200, 3)] "2" cfZero = Except.error "fixme" :=
  ⟨(pick_lookup_spec [(100, 1), (200, 2)] cfZero).1 (by decide) 2 (by decide)
      (by decide),
   ((pick_lookup_spec [(100, 1), (200, 3)] cfZero).2 "2" 2 (by decide)
      (by decide)).1,
   ((pick_lookup_spec [(100, 1), (200, 3)] cfZero).2 "2" 2 (by decide)
      (by decide)).2⟩
